import Mathlib

/-!
Verification of the conversation loop-detection and sanitization engine of
the `context-ambulance` repository.

Message contents are modelled as `List Char` (Python `str`); every function
below is a direct shallow embedding of the corresponding Python source in
`src/context_ambulance/analyzers/__init__.py`,
`src/context_ambulance/analyzers/rules.py` and
`src/context_ambulance/sanitizers/__init__.py`.

Python's `hash` of the first 500 characters of a code block is modelled by
the 500-character prefix itself (hash equality is modelled as key equality).
The float ratio test `0.9 <= len2/len1 <= 1.1` of the code-churn detector
and the percentage computation of `get_removal_stats` are modelled with
rational arithmetic.
-/

namespace ContextAmbulance

/-- Message content: Python `str` modelled as a list of characters. -/
abbrev Content := List Char

/-- Literal string helper: content of a Lean string literal. -/
def str (s : String) : Content := s.data

/-- Python `str.lower()` (per-character, ASCII-faithful). -/
def lowerC (c : Content) : Content := c.map Char.toLower

/-- Characters stripped by Python `str.strip()`. -/
def isWs (c : Char) : Bool :=
  c = ' ' || c = '\t' || c = '\n' || c = '\r' || c = '\x0b' || c = '\x0c'

/-- Python `str.strip()` (both ends). -/
def trimC (c : Content) : Content :=
  ((c.dropWhile isWs).reverse.dropWhile isWs).reverse

/-- Python `needle in haystack` (substring containment). -/
def containsSub (hay pat : Content) : Bool :=
  hay.tails.any (fun t => pat.isPrefixOf t)

/-- Python `s.split(sep)` for a one-character separator. -/
def splitChar (sep : Char) : Content → List Content
  | [] => [[]]
  | a :: rest =>
    let r := splitChar sep rest
    if a = sep then [] :: r else (a :: r.headD []) :: r.tail

/-- `content.split('\n')`. -/
def splitLines (c : Content) : List Content := splitChar '\n' c

/-- Role of a message sender (`MessageRole` in `analyzers/__init__.py`). -/
inductive MessageRole
  | user
  | assistant
  | system
deriving DecidableEq, Repr

/-- A single conversation message (`Message` dataclass). The optional
timestamp plays no role in any analyzed operation and is omitted. -/
structure Message where
  role : MessageRole
  content : Content
deriving DecidableEq, Repr

/-- Default message used for (never-reached) list lookups. -/
def dfltMsg : Message := ⟨MessageRole.user, []⟩

/-- A detected loop (`LoopPattern` dataclass). -/
structure LoopPattern where
  patternType : String
  occurrences : Nat
  firstIndex : Nat
  lastIndex : Nat
  description : Content
deriving DecidableEq, Repr

/-- Default pattern used for (never-reached) lookups. -/
def dfltPat : LoopPattern := ⟨"", 0, 0, 0, []⟩

/-- Analysis results (`Analysis` dataclass). -/
structure Analysis where
  goal : Content
  blocker : Content
  keyInsights : List Content
  loopsDetected : List LoopPattern
  currentState : Option Content
  recommendedSteps : List Content
deriving DecidableEq, Repr

/-- Decimal digits of a natural number, for embedded f-strings. -/
def natChars (n : Nat) : Content := (toString n).data

/-! ### Shared `BaseAnalyzer` helpers (`analyzers/__init__.py`) -/

/-- `'\n'.join(lines)`. -/
def joinNl : List Content → Content
  | [] => []
  | [l] => l
  | l :: rest => l ++ '\n' :: joinNl rest

/-- `BaseAnalyzer._extract_code_blocks`: scan lines, a stripped line starting
with a triple backtick toggles the in-block state, collected inner lines are
joined with newlines on close; an unterminated block is dropped. The line
accumulator is kept in reverse order. -/
def extractCodeBlocksAux : List Content → Bool → List Content → List Content
  | [], _, _ => []
  | line :: rest, inBlock, cur =>
    if (str "```").isPrefixOf (trimC line) then
      if inBlock then joinNl cur.reverse :: extractCodeBlocksAux rest false []
      else extractCodeBlocksAux rest true []
    else if inBlock then extractCodeBlocksAux rest true (line :: cur)
    else extractCodeBlocksAux rest false cur

def extractCodeBlocks (c : Content) : List Content :=
  extractCodeBlocksAux (splitLines c) false []

/-- `BaseAnalyzer._is_error_message`: eight error indicators. -/
def isErrorMessage (c : Content) : Bool :=
  let lc := lowerC c
  [str "error:", str "exception:", str "traceback", str "failed",
   str "cannot", str "undefined", str "null pointer",
   str "segmentation fault"].any (fun ind => containsSub lc ind)

/-- `BaseAnalyzer._is_apology`: five apology phrases. -/
def isApology (c : Content) : Bool :=
  let lc := lowerC c
  [str "i apologize", str "sorry", str "my apologies",
   str "i was wrong", str "let me correct"].any (fun p => containsSub lc p)

/-! ### Rule-based analyzer (`analyzers/rules.py`) -/

/-- Error signature used by the analyzer: `msg.content[:100].lower()`. -/
def sigAna (c : Content) : Content := lowerC (c.take 100)

/-- The `(index, signature)` pairs of error-bearing messages collected by
`_detect_repetitive_errors` (the Python loop appends `(i, sig)` for every
enumerated message passing `_is_error_message`). -/
def errorMessagePairs (msgs : List Message) : List (Nat × Content) :=
  (msgs.enum.filter (fun p => isErrorMessage p.2.content)).map
    (fun p => (p.1, sigAna p.2.content))

/-- First-occurrence-order deduplication with a seen-set accumulator. -/
def firstDedupAux : List Content → List Content → List Content
  | [], _ => []
  | s :: rest, seen =>
    if s ∈ seen then firstDedupAux rest seen
    else s :: firstDedupAux rest (s :: seen)

/-- First-occurrence-order deduplication: iteration order of a Python
`Counter` built by insertion. -/
def firstDedup (l : List Content) : List Content := firstDedupAux l []

/-- `indices = [i for i, sig in error_messages if sig == error_sig]`. -/
def sigPositions (msgs : List Message) (s : Content) : List Nat :=
  ((errorMessagePairs msgs).filter (fun p => decide (p.2 = s))).map Prod.fst

/-- The `LoopPattern` built for one over-threshold error signature. -/
def mkRepErr (s : Content) (idxs : List Nat) : LoopPattern :=
  ⟨"repetitive_error", idxs.length, idxs.headD 0, idxs.getLastD 0,
    str "Same error repeated " ++ natChars idxs.length ++ str " times: "
      ++ s.take 50 ++ str "..."⟩

/-- `RuleBasedAnalyzer._detect_repetitive_errors` (the `Counter` iterates
over signatures in first-occurrence order). -/
def detectRepetitiveErrors (errorThreshold : Nat) (msgs : List Message) :
    List LoopPattern :=
  (firstDedup ((errorMessagePairs msgs).map Prod.snd)).filterMap (fun s =>
    if errorThreshold ≤ (sigPositions msgs s).length then
      some (mkRepErr s (sigPositions msgs s))
    else none)

/-- Claim-side description of the conversation positions bearing error
signature `s`: the error-bearing positions whose signature equals `s`. -/
def errPositions (msgs : List Message) (s : Content) : List Nat :=
  (List.range msgs.length).filter (fun i =>
    isErrorMessage (msgs.getD i dfltMsg).content &&
      decide (sigAna (msgs.getD i dfltMsg).content = s))

/-- Indices collected by `_detect_apology_cascade`: assistant messages whose
content passes `_is_apology`. -/
def apologyIdx (msgs : List Message) : List Nat :=
  (msgs.enum.filter (fun p =>
    p.2.role = MessageRole.assistant && isApology p.2.content)).map Prod.fst

/-- `RuleBasedAnalyzer._detect_apology_cascade`. -/
def detectApologyCascade (apologyThreshold : Nat) (msgs : List Message) :
    List LoopPattern :=
  let idxs := apologyIdx msgs
  if apologyThreshold ≤ idxs.length then
    [⟨"apology_cascade", idxs.length, idxs.headD 0, idxs.getLastD 0,
      str "Model apologized " ++ natChars idxs.length
        ++ str " times without making progress"⟩]
  else []

/-- The `(message_index, block)` pairs collected by `_detect_code_churn`. -/
def codeBlockPairs (msgs : List Message) : List (Nat × Content) :=
  msgs.enum.flatMap (fun p => (extractCodeBlocks p.2.content).map (fun b => (p.1, b)))

/-- The float test `0.9 <= len(code2)/len(code1) <= 1.1` (ratio defined as 0
when `code1` is empty), in exact rational form. -/
def lengthSimilar (code1 code2 : Content) : Bool :=
  if code1.length = 0 then false
  else 9 * code1.length ≤ 10 * code2.length && 10 * code2.length ≤ 11 * code1.length

/-- Outer greedy clustering loop of `_detect_code_churn` over the
position-enumerated block list; `seen` holds consumed block positions. -/
def churnAux : List (Nat × Nat × Content) → List Nat → List LoopPattern
  | [], _ => []
  | (i, idx1, code1) :: rest, seen =>
    if i ∈ seen then churnAux rest seen
    else
      let step := rest.foldl (fun (acc : List Nat × List Nat) jb =>
        if jb.1 ∈ acc.2 then acc
        else if lengthSimilar code1 jb.2.2 then
          (acc.1 ++ [jb.2.1], jb.1 :: acc.2)
        else acc) ([idx1], seen)
      (if 3 ≤ step.1.length then
        [⟨"code_churn", step.1.length, step.1.headD 0, step.1.getLastD 0,
          str "Similar code repeated " ++ natChars step.1.length
            ++ str " times with minor variations"⟩]
      else []) ++ churnAux rest step.2

/-- `RuleBasedAnalyzer._detect_code_churn`. -/
def detectCodeChurn (msgs : List Message) : List LoopPattern :=
  churnAux (codeBlockPairs msgs).enum []

/-- `RuleBasedAnalyzer._extract_goal`. -/
def extractGoal (msgs : List Message) : Content :=
  match msgs.find? (fun m =>
      m.role = MessageRole.user && 50 < m.content.length) with
  | some m =>
    let c := (splitLines m.content).headD []
    if 200 < c.length then c.take 200 ++ str "..." else c
  | none => str "Goal not clearly identified from conversation"

/-- Python `max(error_loops, key=lambda x: x.occurrences)`: the first
maximal element. -/
def maxByOcc : List LoopPattern → Option LoopPattern
  | [] => none
  | p :: rest =>
    some (rest.foldl (fun best q =>
      if best.occurrences < q.occurrences then q else best) p)

/-- Inner scan of `_identify_blocker` over the reversed tail of the
conversation: the first error-bearing message containing a line that
mentions error/exception/failed yields that line, stripped and truncated. -/
def recentErrorLine : List Message → Option Content
  | [] => none
  | m :: rest =>
    if isErrorMessage m.content then
      match (splitLines m.content).find? (fun l =>
          [str "error", str "exception", str "failed"].any
            (fun w => containsSub (lowerC l) w)) with
      | some l => some ((trimC l).take 200)
      | none => recentErrorLine rest
    else recentErrorLine rest

/-- `RuleBasedAnalyzer._identify_blocker`. -/
def identifyBlocker (msgs : List Message) (loops : List LoopPattern) : Content :=
  match maxByOcc (loops.filter (fun l => l.patternType = "repetitive_error")) with
  | some p => p.description
  | none =>
    match recentErrorLine (msgs.drop (msgs.length - 10)).reverse with
    | some line => line
    | none =>
      if loops.any (fun l => l.patternType = "apology_cascade") then
        str "Conversation stuck in repetitive pattern without progress"
      else str "Blocker not clearly identified"

/-- Reverse scan of `_extract_current_state`: first message having a code
block longer than 50 characters. -/
def currentStateAux : List Message → Option Content
  | [] => none
  | m :: rest =>
    match (extractCodeBlocks m.content).find? (fun b => 50 < b.length) with
    | some b => some (str "```" ++ '\n' :: b ++ '\n' :: str "```")
    | none => currentStateAux rest

/-- `RuleBasedAnalyzer._extract_current_state`. -/
def extractCurrentState (msgs : List Message) : Content :=
  match currentStateAux msgs.reverse with
  | some c => c
  | none =>
    match msgs.getLast? with
    | some last =>
      last.content.take 300
        ++ (if 300 < last.content.length then str "..." else [])
    | none => str "Current state unclear"

/-- The progress-indicator phrases of `_extract_insights`. -/
def progressIndicators : List Content :=
  [str "solved", str "fixed", str "working", str "success",
   str "found the issue", str "figured out", str "realized"]

/-- `RuleBasedAnalyzer._extract_insights`. -/
def extractInsights (msgs : List Message) (loops : List LoopPattern) :
    List Content :=
  let loopIndices := loops.flatMap (fun l =>
    List.range' l.firstIndex (l.lastIndex + 1 - l.firstIndex))
  let insights := msgs.enum.filterMap (fun p =>
    if p.1 ∈ loopIndices then none
    else if progressIndicators.any (fun w => containsSub (lowerC p.2.content) w) then
      match (splitChar '.' p.2.content).find? (fun s =>
          progressIndicators.any (fun w => containsSub (lowerC s) w)) with
      | some s =>
        let insight := (trimC s).take 150
        if insight = [] then none else some insight
      | none => none
    else none)
  (if insights = [] then
    [str "No clear breakthroughs identified in conversation"]
   else insights).take 5

/-- `RuleBasedAnalyzer._generate_recommendations`. -/
def generateRecommendations (loops : List LoopPattern) : List Content :=
  let recs :=
    (if loops.any (fun l => l.patternType = "repetitive_error") then
      [str "Try a completely different approach - the current method has failed multiple times"]
     else [])
    ++ (if loops.any (fun l => l.patternType = "apology_cascade") then
      [str "Provide more context or constraints to break out of the current pattern"]
     else [])
    ++ (if loops.any (fun l => l.patternType = "code_churn") then
      [str "Step back and reconsider the architecture rather than making incremental tweaks"]
     else [])
  let recs := if recs = [] then [str "Review the original goal and verify assumptions"] else recs
  recs ++ [str "Consider consulting documentation or external resources"]

/-- `RuleBasedAnalyzer.analyze_conversation`. -/
def analyzeConversation (errorThreshold apologyThreshold : Nat)
    (msgs : List Message) : Analysis :=
  let loops := detectRepetitiveErrors errorThreshold msgs
    ++ detectApologyCascade apologyThreshold msgs
    ++ detectCodeChurn msgs
  { goal := extractGoal msgs
    blocker := identifyBlocker msgs loops
    keyInsights := extractInsights msgs loops
    loopsDetected := loops
    currentState := some (extractCurrentState msgs)
    recommendedSteps := generateRecommendations loops }

/-! ### Sanitizer (`sanitizers/__init__.py`) -/

/-- `SanitizationLevel` from `config.py`. -/
inductive SanitizationLevel
  | minimal
  | balanced
  | aggressive
deriving DecidableEq, Repr

/-- `ConversationSanitizer._is_error`: the sanitizer's own six-indicator
test (it lacks the analyzer's `null pointer` and `segmentation fault`). -/
def isErrorSan (c : Content) : Bool :=
  let lc := lowerC c
  [str "error:", str "exception:", str "traceback", str "failed",
   str "cannot", str "undefined"].any (fun ind => containsSub lc ind)

/-- `ConversationSanitizer._get_error_signature`:
`content[:100].lower().strip()`. -/
def sigSan (c : Content) : Content := trimC (lowerC (c.take 100))

/-- `ConversationSanitizer._is_filler_message`. -/
def isFillerMessage (m : Message) : Bool :=
  if m.role ≠ MessageRole.assistant then false
  else
    let cl := trimC (lowerC m.content)
    if cl.length < 30 && !(containsSub m.content (str "```")) then true
    else if [str "sure", str "okay", str "got it", str "understood",
        str "let me try", (str "i" ++ '\x27' :: str "ll fix"), str "one moment"].any
        (fun p => cl = p) then true
    else false

/-- `ConversationSanitizer._find_apology_indices`: apology-phrase matches in
`range(start, min(end + 1, len(messages)))`, role-blind. -/
def findApologyIndices (msgs : List Message) (start e : Nat) : List Nat :=
  (List.range' start (min (e + 1) msgs.length - start)).filter
    (fun i => isApology (msgs.getD i dfltMsg).content)

/-- `ConversationSanitizer._get_removal_indices` (the removal set is modelled
as a list; only membership is ever used). -/
def removalIndices (msgs : List Message) (loops : List LoopPattern) : List Nat :=
  loops.flatMap (fun loop =>
    if loop.patternType = "repetitive_error" then
      List.range' (loop.firstIndex + 1) (loop.lastIndex - loop.firstIndex)
    else if loop.patternType = "apology_cascade" then
      (findApologyIndices msgs loop.firstIndex loop.lastIndex).drop 1
    else if loop.patternType = "code_churn" then
      List.range' loop.firstIndex (loop.lastIndex - loop.firstIndex)
    else [])

/-- Index-based filtering step of `sanitize`. -/
def filterIdx (msgs : List Message) (rem : List Nat) : List Message :=
  (msgs.enum.filter (fun p => decide (p.1 ∉ rem))).map Prod.snd

/-- Code-deduplication key of `_aggressive_cleanup`: the first 500
characters of the first code block (standing for their Python hash). -/
def codeKey (m : Message) : Option Content :=
  (extractCodeBlocks m.content).head?.map (fun b => b.take 500)

/-- Update of the seen-error-signature set: the signature is recorded as
soon as an error-bearing message passes the duplicate-error check, even if
the message is dropped by a later check. -/
def updE (m : Message) (seenE : List Content) : List Content :=
  if isErrorSan m.content then sigSan m.content :: seenE else seenE

/-- `ConversationSanitizer._aggressive_cleanup`; `seenE` are the seen error
signatures, `seenC` the seen code keys. -/
def aggrAux : List Message → List Content → List Content → List Message
  | [], _, _ => []
  | m :: rest, seenE, seenC =>
    if isErrorSan m.content && decide (sigSan m.content ∈ seenE) then
      aggrAux rest seenE seenC
    else
      match codeKey m with
      | some h =>
        if h ∈ seenC then aggrAux rest (updE m seenE) seenC
        else if isFillerMessage m then aggrAux rest (updE m seenE) (h :: seenC)
        else m :: aggrAux rest (updE m seenE) (h :: seenC)
      | none =>
        if isFillerMessage m then aggrAux rest (updE m seenE) seenC
        else m :: aggrAux rest (updE m seenE) seenC

def aggressiveCleanup (msgs : List Message) : List Message :=
  aggrAux msgs [] []

/-- `error_count[sig] = error_count.get(sig, 0) + 1`. -/
def bump (counts : Content → Nat) (s : Content) : Content → Nat :=
  fun t => if t = s then counts s + 1 else counts t

/-- `ConversationSanitizer._balanced_cleanup`; `counts` is the
`error_count` dictionary (missing keys read as 0). -/
def balAux : List Message → (Content → Nat) → List Message
  | [], _ => []
  | m :: rest, counts =>
    if isErrorSan m.content then
      if 2 < counts (sigSan m.content) + 1 then
        balAux rest (bump counts (sigSan m.content))
      else if isFillerMessage m then balAux rest (bump counts (sigSan m.content))
      else m :: balAux rest (bump counts (sigSan m.content))
    else if isFillerMessage m then balAux rest counts
    else m :: balAux rest counts

def balancedCleanup (msgs : List Message) : List Message :=
  balAux msgs (fun _ => 0)

/-- `ConversationSanitizer.sanitize`. -/
def sanitize (level : SanitizationLevel) (msgs : List Message)
    (analysis : Analysis) : List Message :=
  let sanitized := filterIdx msgs (removalIndices msgs analysis.loopsDetected)
  match level with
  | SanitizationLevel.aggressive => aggressiveCleanup sanitized
  | SanitizationLevel.balanced => balancedCleanup sanitized
  | SanitizationLevel.minimal => sanitized

/-- Banker's rounding (Python `round`) of a rational to an integer. -/
def roundHalfEven (q : ℚ) : ℤ :=
  let f := ⌊q⌋
  let r := q - f
  if r < 1 / 2 then f
  else if 1 / 2 < r then f + 1
  else if Even f then f else f + 1

/-- Python `round(x, 1)`. -/
def round1 (q : ℚ) : ℚ := (roundHalfEven (10 * q) : ℚ) / 10

/-- Statistics record returned by `get_removal_stats`. -/
structure RemovalStats where
  totalRemoved : ℤ
  errorsRemoved : Nat
  apologiesRemoved : Nat
  codeBlocksRemoved : Nat
  originalCount : Nat
  sanitizedCount : Nat
  reductionPercent : ℚ
deriving DecidableEq, Repr

/-- `ConversationSanitizer.get_removal_stats`. The Python code computes the
removed messages by object identity; under the intended precondition that
`sanitized` is an identity-subsequence of `original`, the removed messages
form the multiset difference, modelled here with `List.diff`. -/
def getRemovalStats (original sanitized : List Message) : RemovalStats :=
  let removedCount : ℤ := (original.length : ℤ) - sanitized.length
  let removed := original.diff sanitized
  { totalRemoved := removedCount
    errorsRemoved := removed.countP (fun m => isErrorSan m.content)
    apologiesRemoved := removed.countP (fun m => isApology m.content)
    codeBlocksRemoved := removed.countP (fun m => !(extractCodeBlocks m.content).isEmpty)
    originalCount := original.length
    sanitizedCount := sanitized.length
    reductionPercent :=
      if original.length ≠ 0 then
        round1 ((removedCount : ℚ) / (original.length : ℚ) * 100)
      else 0 }

/-! ### Claim-side formalizations

The definitions below state several claims in the words of the
specification, independently of the implementation above, so that the
implementation can be compared against them. -/

/-- The balanced second pass as the specification describes it, generic in
the error-bearing test `errB` and the signature function `sg`: keep a
message unless it is filler or it is error-bearing and at least two earlier
error-bearing messages share its signature. -/
def balancedDecl (errB : Content → Bool) (sg : Content → Content)
    (l : List Message) : List Message :=
  (l.enum.filter (fun p =>
    !(isFillerMessage p.2) &&
    (!(errB p.2.content) ||
      decide ((l.take (p.1 + 1)).countP (fun m2 =>
        errB m2.content && decide (sg m2.content = sg p.2.content)) ≤ 2)))).map
    Prod.snd

/-- Error-bearing with a given sanitizer signature. -/
def errWithSig (s : Content) (m : Message) : Bool :=
  isErrorSan m.content && decide (sigSan m.content = s)

/-- Claim C6 as stated, at one input: the aggressive pass keeps no filler,
keeps at most the first error-bearing message per signature, and keeps at
most the first message per code signature. -/
def claimC6At (l : List Message) : Prop :=
  (∀ m ∈ aggressiveCleanup l, isFillerMessage m = false)
  ∧ List.Pairwise (fun a b => ¬(isErrorSan a.content = true ∧
      isErrorSan b.content = true ∧ sigSan a.content = sigSan b.content))
      (aggressiveCleanup l)
  ∧ (∀ m ∈ aggressiveCleanup l, isErrorSan m.content = true →
      (l.filter (errWithSig (sigSan m.content))).headD dfltMsg = m)
  ∧ List.Pairwise (fun a b => ¬((codeKey a).isSome = true ∧ codeKey a = codeKey b))
      (aggressiveCleanup l)
  ∧ (aggressiveCleanup l).all (fun m =>
      match codeKey m with
      | some h => decide ((l.filter (fun m2 => codeKey m2 == some h)).headD dfltMsg = m)
      | none => true) = true

/-- The first element of maximal `occurrences` ("highest occurrences, ties
broken by the first encountered"). -/
def firstMaxByOcc (loops : List LoopPattern) : Option LoopPattern :=
  loops.find? (fun q => loops.all (fun r => r.occurrences ≤ q.occurrences))

/-- Claim C7's priority cascade for blocker identification, at one input.
When `strip` is false, step (2) returns the matching line truncated to 200
characters exactly as the claim words it; when `strip` is true, the line is
first stripped of surrounding whitespace (amended form). -/
def claimC7With (strip : Bool) (msgs : List Message)
    (loops : List LoopPattern) : Prop :=
  (loops.filter (fun l => decide (l.patternType = "repetitive_error")) ≠ [] →
    identifyBlocker msgs loops =
      ((firstMaxByOcc (loops.filter (fun l =>
        decide (l.patternType = "repetitive_error")))).getD dfltPat).description)
  ∧ (loops.filter (fun l => decide (l.patternType = "repetitive_error")) = [] →
      Option.all (fun m =>
        Option.all (fun ln => decide (identifyBlocker msgs loops =
            ((if strip then trimC ln else ln).take 200)))
          ((splitLines m.content).find? (fun ln =>
            [str "error", str "exception", str "failed"].any
              (fun w => containsSub (lowerC ln) w))))
        (((msgs.drop (msgs.length - 10)).reverse).find?
          (fun m => isErrorMessage m.content)) = true)
  ∧ (loops.filter (fun l => decide (l.patternType = "repetitive_error")) = [] →
      ((msgs.drop (msgs.length - 10)).reverse).all
        (fun m => !(isErrorMessage m.content)) = true →
      loops.any (fun l => decide (l.patternType = "apology_cascade")) = true →
      identifyBlocker msgs loops
        = str "Conversation stuck in repetitive pattern without progress")
  ∧ (loops.filter (fun l => decide (l.patternType = "repetitive_error")) = [] →
      ((msgs.drop (msgs.length - 10)).reverse).all
        (fun m => !(isErrorMessage m.content)) = true →
      loops.any (fun l => decide (l.patternType = "apology_cascade")) = false →
      identifyBlocker msgs loops = str "Blocker not clearly identified")

/-- Claim C8 (scenario A) as stated, at one input: an 8-message alternating
user/assistant conversation whose assistant messages at indices 1, 3, 5, 7
each bear an apology phrase yields exactly one `apology_cascade` pattern
(`occurrences = 4`, spanning 1..7), and balanced sanitization removes at
least 3 of the 4 apology messages while keeping the message at index 1. -/
def claimC8At (msgs : List Message) : Prop :=
  msgs.length = 8 →
  (∀ i ∈ [0, 2, 4, 6], (msgs.getD i dfltMsg).role = MessageRole.user) →
  (∀ i ∈ [1, 3, 5, 7], (msgs.getD i dfltMsg).role = MessageRole.assistant) →
  (∀ i ∈ [1, 3, 5, 7], isApology (msgs.getD i dfltMsg).content = true) →
  ((analyzeConversation 3 3 msgs).loopsDetected.countP
      (fun l => decide (l.patternType = "apology_cascade")) = 1
    ∧ (analyzeConversation 3 3 msgs).loopsDetected.countP (fun l =>
        decide (l.patternType = "apology_cascade") && (decide (l.occurrences = 4) &&
        (decide (l.firstIndex = 1) && decide (l.lastIndex = 7)))) = 1
    ∧ (sanitize SanitizationLevel.balanced msgs (analyzeConversation 3 3 msgs)).countP
        (fun m => decide (m ∈ [msgs.getD 1 dfltMsg, msgs.getD 3 dfltMsg,
          msgs.getD 5 dfltMsg, msgs.getD 7 dfltMsg])) ≤ 1
    ∧ msgs.getD 1 dfltMsg ∈ sanitize SanitizationLevel.balanced msgs
        (analyzeConversation 3 3 msgs))

/-! ### Concrete inputs for counterexamples and witnesses -/

/-- Three user messages that are error-bearing for the analyzer's
eight-indicator test (`null pointer`) but not for the sanitizer's
six-indicator test. -/
def exC5 : List Message :=
  [⟨MessageRole.user, str "null pointer at address zero"⟩,
   ⟨MessageRole.user, str "null pointer at address zero"⟩,
   ⟨MessageRole.user, str "null pointer at address zero"⟩]

/-- A 100-character error text. -/
def e100 : Content := str "error: " ++ List.replicate 93 'a'

/-- The second message duplicates the first one's error signature and bears
a code block; the third message bears the same code block but no error. -/
def exC6 : List Message :=
  [⟨MessageRole.user, e100⟩,
   ⟨MessageRole.user, e100 ++ str "\n```\nxyz\n```"⟩,
   ⟨MessageRole.user, str "see\n```\nxyz\n```"⟩]

/-- One error-bearing message (via `cannot`) whose matching line carries
leading whitespace. -/
def exC7 : List Message :=
  [⟨MessageRole.user, str "cannot add\n   error: x"⟩]

/-- Scenario A, instantiated with a one-word apology: a conversation of 8
alternating user/assistant messages with apologies at indices 1, 3, 5, 7. -/
def exC8 : List Message :=
  [⟨MessageRole.user, str "hello there"⟩,
   ⟨MessageRole.assistant, str "sorry"⟩,
   ⟨MessageRole.user, str "ok continue"⟩,
   ⟨MessageRole.assistant, str "sorry again friend"⟩,
   ⟨MessageRole.user, str "go on"⟩,
   ⟨MessageRole.assistant, str "sorry once more ok"⟩,
   ⟨MessageRole.user, str "hm"⟩,
   ⟨MessageRole.assistant, str "sorry final time yes"⟩]

/-! ### Structural lemmas: every sanitization stage is a sublist pass -/

lemma filterIdx_sublist (msgs : List Message) (rem : List Nat) :
    List.Sublist (filterIdx msgs rem) msgs := by
  have h1 : List.Sublist (msgs.enum.filter (fun p => decide (p.1 ∉ rem))) msgs.enum :=
    List.filter_sublist _
  have h2 := List.Sublist.map Prod.snd h1
  rwa [List.enum_map_snd] at h2

lemma aggrAux_sublist : ∀ (l : List Message) (seenE seenC : List Content),
    List.Sublist (aggrAux l seenE seenC) l := by
  intro l
  induction l with
  | nil => intro seenE seenC; simp [aggrAux]
  | cons m rest ih =>
    intro seenE seenC
    rw [aggrAux]
    split
    · exact (ih _ _).cons _
    · split
      · split
        · exact (ih _ _).cons _
        · split
          · exact (ih _ _).cons _
          · exact (ih _ _).cons₂ _
      · split
        · exact (ih _ _).cons _
        · exact (ih _ _).cons₂ _

lemma balAux_sublist : ∀ (l : List Message) (counts : Content → Nat),
    List.Sublist (balAux l counts) l := by
  intro l
  induction l with
  | nil => intro counts; simp [balAux]
  | cons m rest ih =>
    intro counts
    rw [balAux]
    split
    · split
      · exact (ih _).cons _
      · split
        · exact (ih _).cons _
        · exact (ih _).cons₂ _
    · split
      · exact (ih _).cons _
      · exact (ih _).cons₂ _

/-- **C3.** For every message list, analysis and sanitization level,
`sanitize` returns a subsequence of its input (the same `Message` values, in
the same relative order, at a subset of the positions — no content is
modified), so in particular its length never exceeds the input length. -/
theorem claim_C3 (level : SanitizationLevel) (msgs : List Message)
    (analysis : Analysis) :
    List.Sublist (sanitize level msgs analysis) msgs ∧
      (sanitize level msgs analysis).length ≤ msgs.length := by
  have hsub : List.Sublist (sanitize level msgs analysis) msgs := by
    unfold sanitize
    cases level with
    | minimal => exact filterIdx_sublist msgs _
    | balanced =>
      exact List.Sublist.trans (balAux_sublist _ _) (filterIdx_sublist msgs _)
    | aggressive =>
      exact List.Sublist.trans (aggrAux_sublist _ _ _) (filterIdx_sublist msgs _)
  exact ⟨hsub, hsub.length_le⟩

/-! ### Monotonicity of the cleanup levels -/

/-- The aggressive pass keeps a subsequence of what the balanced pass keeps,
provided the seen-signature set and the count dictionary agree on which
signatures have already occurred. -/
lemma aggr_bal_sublist :
    ∀ (l : List Message) (seenE seenC : List Content) (counts : Content → Nat),
    (∀ s, s ∈ seenE ↔ 1 ≤ counts s) →
    List.Sublist (aggrAux l seenE seenC) (balAux l counts) := by
  intro l
  induction l with
  | nil => intro _ _ _ _; simp [aggrAux, balAux]
  | cons m rest ih =>
    intro seenE seenC counts hinv
    by_cases he : isErrorSan m.content = true
    · have hinv' : ∀ s, s ∈ updE m seenE ↔ 1 ≤ bump counts (sigSan m.content) s := by
        intro s
        unfold updE bump
        by_cases h : s = sigSan m.content
        · subst h; simp [he]
        · simp only [he, if_pos, List.mem_cons, if_neg h, hinv s, or_iff_right h]
      by_cases hs : sigSan m.content ∈ seenE
      · -- duplicate error: the aggressive pass drops the message
        have hc1 : 1 ≤ counts (sigSan m.content) := (hinv _).mp hs
        have hup : updE m seenE = sigSan m.content :: seenE := by simp [updE, he]
        have hinv2 : ∀ s, s ∈ seenE ↔ 1 ≤ bump counts (sigSan m.content) s := by
          intro s
          rcases eq_or_ne s (sigSan m.content) with h | h
          · subst h; simp [bump, hs]
          · simp only [bump, if_neg h]; exact hinv s
        rw [aggrAux, balAux,
          if_pos (show (isErrorSan m.content && decide (sigSan m.content ∈ seenE)) = true
            by simp [he, hs]),
          if_pos he]
        have base := ih seenE seenC (bump counts (sigSan m.content)) hinv2
        by_cases hcnt : 2 < counts (sigSan m.content) + 1
        · simp only [if_pos hcnt]
          exact base
        · simp only [if_neg hcnt]
          by_cases hf : isFillerMessage m = true
          · simp only [if_pos hf]; exact base
          · simp only [if_neg hf]; exact base.cons _
      · -- fresh error signature
        have hcnt0 : counts (sigSan m.content) = 0 := by
          by_contra h
          exact hs ((hinv _).mpr (by omega))
        rw [aggrAux, balAux,
          if_neg (show ¬ ((isErrorSan m.content && decide (sigSan m.content ∈ seenE)) = true)
            by simp [hs]),
          if_pos he, hcnt0]
        have hlt : ¬ (2 < 0 + 1) := by omega
        rw [if_neg hlt]
        have base : ∀ seenC', List.Sublist (aggrAux rest (updE m seenE) seenC')
            (balAux rest (bump counts (sigSan m.content))) :=
          fun seenC' => ih _ seenC' _ hinv'
        by_cases hf : isFillerMessage m = true
        · simp only [if_pos hf]
          cases hk : codeKey m with
          | none => simp only [hf, if_pos]; exact base seenC
          | some h =>
            by_cases hC : h ∈ seenC
            · simp only [if_pos hC]; exact base seenC
            · simp only [if_neg hC, if_pos hf]; exact base (h :: seenC)
        · simp only [if_neg hf]
          cases hk : codeKey m with
          | none => simp only [if_neg hf]; exact (base seenC).cons₂ _
          | some h =>
            by_cases hC : h ∈ seenC
            · simp only [if_pos hC]; exact (base seenC).cons _
            · simp only [if_neg hC, if_neg hf]; exact (base (h :: seenC)).cons₂ _
    · -- not error-bearing
      have hupd : updE m seenE = seenE := by simp [updE, he]
      rw [aggrAux, balAux,
        if_neg (show ¬ ((isErrorSan m.content && decide (sigSan m.content ∈ seenE)) = true)
          by simp [he]),
        if_neg he]
      simp only [hupd]
      have base : ∀ seenC', List.Sublist (aggrAux rest seenE seenC') (balAux rest counts) :=
        fun seenC' => ih _ seenC' _ hinv
      by_cases hf : isFillerMessage m = true
      · simp only [if_pos hf]
        cases hk : codeKey m with
        | none => exact base seenC
        | some h =>
          by_cases hC : h ∈ seenC
          · simp only [if_pos hC]; exact base seenC
          · simp only [if_neg hC, if_pos hf]; exact base (h :: seenC)
      · simp only [if_neg hf]
        cases hk : codeKey m with
        | none => exact (base seenC).cons₂ _
        | some h =>
          by_cases hC : h ∈ seenC
          · simp only [if_pos hC]; exact (base seenC).cons _
          · simp only [if_neg hC, if_neg hf]; exact (base (h :: seenC)).cons₂ _

/-- **C4.** For the same input and analysis, the aggressive level removes at
least as many messages as the balanced level, which removes at least as many
as the minimal level. -/
theorem claim_C4 (msgs : List Message) (analysis : Analysis) :
    (sanitize SanitizationLevel.aggressive msgs analysis).length ≤
      (sanitize SanitizationLevel.balanced msgs analysis).length ∧
    (sanitize SanitizationLevel.balanced msgs analysis).length ≤
      (sanitize SanitizationLevel.minimal msgs analysis).length := by
  unfold sanitize
  constructor
  · exact (aggr_bal_sublist _ [] [] (fun _ => 0) (by simp)).length_le
  · exact (balAux_sublist _ _).length_le

/-! ### Index lists produced by enumerate-and-filter scans -/

lemma enumFrom_filter_map_fst (f : Nat → Message → Bool) :
    ∀ (l : List Message) (n : Nat),
    ((List.enumFrom n l).filter (fun p => f p.1 p.2)).map Prod.fst
      = (List.range' n l.length).filter (fun i => f i (l.getD (i - n) dfltMsg)) := by
  intro l
  induction l with
  | nil => intro n; simp
  | cons m t ih =>
    intro n
    have hcong : (List.range' (n + 1) t.length).filter
          (fun i => f i ((m :: t).getD (i - n) dfltMsg))
        = (List.range' (n + 1) t.length).filter
          (fun i => f i (t.getD (i - (n + 1)) dfltMsg)) := by
      apply List.filter_congr
      intro i hi
      have hge : n + 1 ≤ i := (List.mem_range'_1.mp hi).1
      have hstep : i - n = (i - (n + 1)) + 1 := by omega
      rw [hstep, List.getD_cons_succ]
    show (((n, m) :: List.enumFrom (n + 1) t).filter (fun p => f p.1 p.2)).map Prod.fst
      = (List.range' n (t.length + 1)).filter (fun i => f i ((m :: t).getD (i - n) dfltMsg))
    rw [List.range'_succ, List.filter_cons, List.filter_cons]
    simp only [Nat.sub_self, List.getD_cons_zero]
    by_cases hf : f n m = true
    · simp only [hf, if_pos, List.map_cons, hcong, ih (n + 1)]
    · simp only [Bool.not_eq_true] at hf
      simp only [hf, Bool.false_eq_true, if_false, hcong]
      exact ih (n + 1)

lemma enum_filter_map_fst (f : Nat → Message → Bool) (l : List Message) :
    (l.enum.filter (fun p => f p.1 p.2)).map Prod.fst
      = (List.range l.length).filter (fun i => f i (l.getD i dfltMsg)) := by
  have h := enumFrom_filter_map_fst f l 0
  simpa [List.range_eq_range'] using h

/-- **C1.** If the number of assistant-role apology messages reaches the
threshold, the apology-cascade detector emits exactly one `apology_cascade`
pattern whose `occurrences` is that count and whose `first_index` and
`last_index` are the first and last such positions; below the threshold it
emits nothing. -/
theorem claim_C1 (thr : Nat) (msgs : List Message) :
    let pos := (List.range msgs.length).filter (fun i =>
      decide ((msgs.getD i dfltMsg).role = MessageRole.assistant) &&
        isApology (msgs.getD i dfltMsg).content)
    (thr ≤ pos.length →
      detectApologyCascade thr msgs =
        [⟨"apology_cascade", pos.length, pos.headD 0, pos.getLastD 0,
          str "Model apologized " ++ natChars pos.length
            ++ str " times without making progress"⟩])
    ∧ (pos.length < thr → detectApologyCascade thr msgs = []) := by
  intro pos
  have hEq : apologyIdx msgs = pos :=
    enum_filter_map_fst
      (fun _ m => decide (m.role = MessageRole.assistant) && isApology m.content) msgs
  constructor
  · intro h
    unfold detectApologyCascade
    simp only [hEq]
    rw [if_pos h]
  · intro h
    unfold detectApologyCascade
    simp only [hEq]
    rw [if_neg (by omega)]

/-- Witness for C1 on scenario A's conversation: four assistant apologies at
indices 1, 3, 5, 7 with threshold 3. -/
theorem claim_C1_wit :
    detectApologyCascade 3 exC8 =
      [⟨"apology_cascade", 4, 1, 7,
        str "Model apologized 4 times without making progress"⟩] := by
  have h := (claim_C1 3 exC8).1 (by decide)
  exact h.trans (by decide)

/-! ### Repetitive-error detector: grouping by signature -/

lemma countP_filterMap {α β : Type} (f : α → Option β) (q : β → Bool) :
    ∀ l : List α,
    (l.filterMap f).countP q = l.countP (fun a => ((f a).map q).getD false) := by
  intro l
  induction l with
  | nil => simp
  | cons a t ih =>
    cases hf : f a with
    | none => simp [List.filterMap_cons, hf, List.countP_cons, ih]
    | some b =>
      by_cases hq : q b = true
      · simp [List.filterMap_cons, hf, List.countP_cons, hq, ih]
      · simp only [Bool.not_eq_true] at hq
        simp [List.filterMap_cons, hf, List.countP_cons, hq, ih]

lemma firstDedupAux_mem {s : Content} :
    ∀ (l seen : List Content), s ∈ firstDedupAux l seen ↔ (s ∈ l ∧ s ∉ seen) := by
  intro l
  induction l with
  | nil => intro seen; simp [firstDedupAux]
  | cons a t ih =>
    intro seen
    rw [firstDedupAux]
    by_cases ha : a ∈ seen
    · rw [if_pos ha, ih]
      constructor
      · rintro ⟨h1, h2⟩
        exact ⟨List.mem_cons_of_mem _ h1, h2⟩
      · rintro ⟨h1, h2⟩
        rcases List.mem_cons.mp h1 with h | h
        · exact absurd (h ▸ ha) h2
        · exact ⟨h, h2⟩
    · rw [if_neg ha]
      simp only [List.mem_cons, ih]
      constructor
      · rintro (h | ⟨h1, h2⟩)
        · exact ⟨Or.inl h, h ▸ ha⟩
        · exact ⟨Or.inr h1, fun hs => h2 (Or.inr hs)⟩
      · rintro ⟨h1, h2⟩
        rcases h1 with h | h
        · exact Or.inl h
        · by_cases heq : s = a
          · exact Or.inl heq
          · exact Or.inr ⟨h, by simp [heq, h2]⟩

lemma firstDedup_mem {s : Content} {l : List Content} :
    s ∈ firstDedup l ↔ s ∈ l := by
  unfold firstDedup
  rw [firstDedupAux_mem]
  simp

lemma firstDedupAux_nodup :
    ∀ (l seen : List Content), (firstDedupAux l seen).Nodup := by
  intro l
  induction l with
  | nil => intro seen; simp [firstDedupAux]
  | cons a t ih =>
    intro seen
    rw [firstDedupAux]
    by_cases ha : a ∈ seen
    · rw [if_pos ha]
      exact ih seen
    · rw [if_neg ha]
      refine List.Nodup.cons ?_ (ih (a :: seen))
      intro hmem
      have h := (firstDedupAux_mem t (a :: seen)).mp hmem
      exact h.2 (List.mem_cons_self a seen)

lemma firstDedup_nodup (l : List Content) : (firstDedup l).Nodup :=
  firstDedupAux_nodup l []

lemma headD_mem {α : Type} {l : List α} (h : l ≠ []) (d : α) : l.headD d ∈ l := by
  cases l with
  | nil => exact absurd rfl h
  | cons a t => simp

lemma countP_eq_one_of_nodup_mem {α : Type} [DecidableEq α] (s : α) (q : α → Bool) :
    ∀ l : List α, l.Nodup → s ∈ l → (∀ t ∈ l, q t = decide (t = s)) →
    l.countP q = 1 := by
  intro l
  induction l with
  | nil => intro _ h; simp at h
  | cons a t ih =>
    intro hnd hmem hq
    by_cases heq : a = s
    · have hqa : q a = true := by
        rw [hq a (List.mem_cons_self a t)]
        simp [heq]
      have hzero : t.countP q = 0 := by
        rw [List.countP_eq_zero]
        intro b hb
        have hbne : ¬ b = s := by
          intro h
          apply (List.nodup_cons.mp hnd).1
          have hab : a = b := heq.trans h.symm
          rw [hab]
          exact hb
        rw [hq b (List.mem_cons_of_mem _ hb)]
        simp [hbne]
      rw [List.countP_cons, hqa, hzero]
      simp
    · have hmem' : s ∈ t := by
        rcases List.mem_cons.mp hmem with h | h
        · exact absurd h.symm heq
        · exact h
      have hqa : q a = false := by
        rw [hq a (List.mem_cons_self a t)]
        simp [heq]
      rw [List.countP_cons, hqa]
      simp [ih (List.nodup_cons.mp hnd).2 hmem'
        (fun b hb => hq b (List.mem_cons_of_mem _ hb))]

/-- The message positions grouped under signature `s` by
`_detect_repetitive_errors`, expressed as a filter of the position range. -/
lemma sigPositions_eq (msgs : List Message) (s : Content) :
    sigPositions msgs s = errPositions msgs s := by
  unfold sigPositions errPositions errorMessagePairs
  rw [List.filter_map]
  rw [List.map_map, List.filter_filter]
  have hcomm : (msgs.enum.filter fun a =>
        ((fun p => decide (p.2 = s)) ∘ fun p => (p.1, sigAna p.2.content)) a &&
          isErrorMessage a.2.content)
      = msgs.enum.filter (fun p =>
          isErrorMessage p.2.content && decide (sigAna p.2.content = s)) := by
    apply List.filter_congr
    intro p _
    simp [Bool.and_comm]
  rw [hcomm]
  have := enum_filter_map_fst (fun _ m =>
    isErrorMessage m.content && decide (sigAna m.content = s)) msgs
  exact this

/-- **C2.** For every error signature that actually occurs: if it occurs at
least `error_threshold` times, the repetitive-error detector emits exactly
one `repetitive_error` pattern whose `occurrences` is the group size and
whose `first_index`/`last_index` are the first and last conversation
positions of the signature; a signature occurring fewer than
`error_threshold` times yields no pattern. -/
theorem claim_C2 (thr : Nat) (msgs : List Message) (s : Content)
    (hne : errPositions msgs s ≠ []) :
    (thr ≤ (errPositions msgs s).length →
      (detectRepetitiveErrors thr msgs).countP (fun p =>
        decide (p.patternType = "repetitive_error") &&
        (decide (p.occurrences = (errPositions msgs s).length) &&
        (decide (p.firstIndex = (errPositions msgs s).headD 0) &&
        decide (p.lastIndex = (errPositions msgs s).getLastD 0)))) = 1)
    ∧ ((errPositions msgs s).length < thr →
      (detectRepetitiveErrors thr msgs).countP
        (fun p => decide (p.firstIndex ∈ errPositions msgs s)) = 0) := by
  have hmemPos : ∀ (t : Content) (i : Nat), i ∈ errPositions msgs t ↔
      (i < msgs.length ∧ isErrorMessage (msgs.getD i dfltMsg).content = true ∧
        sigAna (msgs.getD i dfltMsg).content = t) := by
    intro t i
    unfold errPositions
    simp [List.mem_filter, List.mem_range, and_assoc]
  have hdisj : ∀ t u i, i ∈ errPositions msgs t → i ∈ errPositions msgs u → t = u := by
    intro t u i h1 h2
    have a1 := (hmemPos t i).mp h1
    have a2 := (hmemPos u i).mp h2
    rw [← a1.2.2, a2.2.2]
  have hnonempty : ∀ t ∈ firstDedup ((errorMessagePairs msgs).map Prod.snd),
      errPositions msgs t ≠ [] := by
    intro t ht
    obtain ⟨p, hp, hpt⟩ := List.mem_map.mp (firstDedup_mem.mp ht)
    have hpin : p.1 ∈ sigPositions msgs t := by
      unfold sigPositions
      exact List.mem_map.mpr ⟨p, List.mem_filter.mpr ⟨hp, by simp [hpt]⟩, rfl⟩
    rw [sigPositions_eq] at hpin
    exact List.ne_nil_of_mem hpin
  have hsmem : s ∈ firstDedup ((errorMessagePairs msgs).map Prod.snd) := by
    have hi := headD_mem hne 0
    rw [← sigPositions_eq msgs s] at hi
    unfold sigPositions at hi
    obtain ⟨p, hp, _⟩ := List.mem_map.mp hi
    have hp' := List.mem_filter.mp hp
    refine firstDedup_mem.mpr (List.mem_map.mpr ⟨p, hp'.1, ?_⟩)
    simpa using hp'.2
  constructor
  · intro hthr
    unfold detectRepetitiveErrors
    rw [countP_filterMap]
    apply countP_eq_one_of_nodup_mem s _ _ (firstDedup_nodup _) hsmem
    intro t ht
    by_cases hts : t = s
    · subst hts
      rw [sigPositions_eq, if_pos hthr]
      simp [mkRepErr]
    · rw [sigPositions_eq]
      by_cases hc : thr ≤ (errPositions msgs t).length
      · rw [if_pos hc]
        have hno : ¬ ((errPositions msgs t).headD 0 = (errPositions msgs s).headD 0) := by
          intro heq
          apply hts
          refine hdisj t s _ (headD_mem (hnonempty t ht) 0) ?_
          rw [heq]
          exact headD_mem hne 0
        simp only [List.headD_eq_head?_getD] at hno
        simp [mkRepErr, hno, hts]
      · rw [if_neg hc]
        simp [hts]
  · intro hlt
    unfold detectRepetitiveErrors
    rw [List.countP_eq_zero]
    intro pat hpat
    obtain ⟨t, ht, hmk⟩ := List.mem_filterMap.mp hpat
    by_cases hc : thr ≤ (sigPositions msgs t).length
    · rw [if_pos hc] at hmk
      have hpatEq : pat = mkRepErr t (sigPositions msgs t) := (Option.some.inj hmk).symm
      rw [sigPositions_eq] at hpatEq hc
      intro hdec
      have hmem : (errPositions msgs t).headD 0 ∈ errPositions msgs s := by
        simpa [hpatEq, mkRepErr] using hdec
      have hts : t = s := hdisj t s _ (headD_mem (hnonempty t ht) 0) hmem
      rw [hts] at hc
      omega
    · rw [if_neg hc] at hmk
      simp at hmk

/-- Witness for C2: three identical `null pointer` messages with threshold 3
produce exactly one matching pattern. -/
theorem claim_C2_wit :
    (detectRepetitiveErrors 3 exC5).countP (fun p =>
      decide (p.patternType = "repetitive_error") &&
      (decide (p.occurrences =
        (errPositions exC5 (str "null pointer at address zero")).length) &&
      (decide (p.firstIndex =
        (errPositions exC5 (str "null pointer at address zero")).headD 0) &&
      decide (p.lastIndex =
        (errPositions exC5 (str "null pointer at address zero")).getLastD 0)))) = 1 :=
  (claim_C2 3 exC5 (str "null pointer at address zero") (by decide)).1 (by decide)

/-! ### Removal statistics and robustness to out-of-range indices -/

/-- **C9.** For a sanitized sequence that is an order-preserving subsequence
of the original, `get_removal_stats` reports `total_removed` as the length
difference, and `reduction_percent` as `round(removed/original*100, 1)` for
a nonempty original and `0` for an empty one. -/
theorem claim_C9 (original sanitized : List Message)
    (hsub : List.Sublist sanitized original) :
    (getRemovalStats original sanitized).totalRemoved
        = (original.length : ℤ) - sanitized.length
    ∧ (0 < original.length →
        (getRemovalStats original sanitized).reductionPercent
          = round1 ((((original.length : ℤ) - (sanitized.length : ℤ) : ℤ) : ℚ)
              / (original.length : ℚ) * 100))
    ∧ (original = [] → (getRemovalStats original sanitized).reductionPercent = 0) := by
  refine ⟨rfl, ?_, ?_⟩
  · intro h
    dsimp only [getRemovalStats]
    rw [if_pos (by omega)]
  · intro h
    subst h
    dsimp only [getRemovalStats]
    rw [if_neg (by simp)]

/-- Witness for C9 at a concrete pair: removing one of two messages yields
a 50-percent reduction. -/
theorem claim_C9_wit :
    (getRemovalStats
        [⟨MessageRole.user, str "a"⟩, ⟨MessageRole.user, str "b"⟩]
        [⟨MessageRole.user, str "a"⟩]).totalRemoved = 1
    ∧ (getRemovalStats
        [⟨MessageRole.user, str "a"⟩, ⟨MessageRole.user, str "b"⟩]
        [⟨MessageRole.user, str "a"⟩]).reductionPercent = 50 := by
  have h := claim_C9
    [⟨MessageRole.user, str "a"⟩, ⟨MessageRole.user, str "b"⟩]
    [⟨MessageRole.user, str "a"⟩] (by decide)
  refine ⟨h.1.trans (by norm_num), (h.2.1 (by norm_num)).trans ?_⟩
  unfold round1 roundHalfEven
  norm_num

/-- **C10.** `sanitize` is total over arbitrary loop indices: the apology
re-scan clamps its range to the message-list length, and only removal
indices below the length influence the result (indices at or beyond the end
have no effect). -/
theorem claim_C10 (level : SanitizationLevel) (msgs : List Message)
    (a₁ a₂ : Analysis) (start e : Nat) :
    (∀ i ∈ findApologyIndices msgs start e, i < msgs.length)
    ∧ ((∀ i, i < msgs.length →
          (i ∈ removalIndices msgs a₁.loopsDetected ↔
            i ∈ removalIndices msgs a₂.loopsDetected)) →
        sanitize level msgs a₁ = sanitize level msgs a₂) := by
  constructor
  · intro i hi
    unfold findApologyIndices at hi
    have hmem := (List.mem_filter.mp hi).1
    have hr := List.mem_range'_1.mp hmem
    have hminle : min (e + 1) msgs.length ≤ msgs.length := Nat.min_le_right _ _
    omega
  · intro hagree
    have hfilter : filterIdx msgs (removalIndices msgs a₁.loopsDetected)
        = filterIdx msgs (removalIndices msgs a₂.loopsDetected) := by
      unfold filterIdx
      congr 1
      apply List.filter_congr
      intro p hp
      have hlt : p.1 < msgs.length := List.fst_lt_of_mem_enum hp
      exact decide_eq_decide.mpr (not_congr (hagree p.1 hlt))
    unfold sanitize
    rw [hfilter]

/-- Witness for C10: an analysis whose only loop lies entirely beyond the
end of a two-message conversation sanitizes exactly like the empty
analysis. -/
theorem claim_C10_wit :
    sanitize SanitizationLevel.minimal
        [⟨MessageRole.user, str "a"⟩, ⟨MessageRole.user, str "b"⟩]
        ⟨[], [], [], [⟨"repetitive_error", 5, 5, 9, []⟩], none, []⟩
      = sanitize SanitizationLevel.minimal
        [⟨MessageRole.user, str "a"⟩, ⟨MessageRole.user, str "b"⟩]
        ⟨[], [], [], [], none, []⟩ :=
  (claim_C10 SanitizationLevel.minimal
    [⟨MessageRole.user, str "a"⟩, ⟨MessageRole.user, str "b"⟩]
    ⟨[], [], [], [⟨"repetitive_error", 5, 5, 9, []⟩], none, []⟩
    ⟨[], [], [], [], none, []⟩ 0 0).2 (by decide)

/-! ### The balanced pass, characterized declaratively -/

/-- Generalized invariant proof: running `_balanced_cleanup` from a count
dictionary that tallies an already-scanned prefix keeps exactly the
positions whose prefix count of equal error signatures is at most 2 and
which are not filler. -/
lemma balAux_decl_aux :
    ∀ (t : List Message) (pre : List Message) (c : Content → Nat),
    (∀ s, c s = pre.countP (fun m2 =>
        isErrorSan m2.content && decide (sigSan m2.content = s))) →
    balAux t c = ((List.enumFrom pre.length t).filter (fun p =>
      !(isFillerMessage p.2) && (!(isErrorSan p.2.content) ||
        decide (((pre ++ t).take (p.1 + 1)).countP (fun m2 =>
            isErrorSan m2.content &&
              decide (sigSan m2.content = sigSan p.2.content)) ≤ 2)))).map
      Prod.snd := by
  intro t
  induction t with
  | nil => intro pre c hc; simp [balAux]
  | cons m t' ih =>
    intro pre c hc
    have htake : (pre ++ m :: t').take (pre.length + 1) = pre ++ [m] := by
      have h := @List.take_append _ pre (m :: t') 1
      simpa using h
    have hcm : ((pre ++ m :: t').take (pre.length + 1)).countP (fun m2 =>
        isErrorSan m2.content && decide (sigSan m2.content = sigSan m.content))
        = c (sigSan m.content) + (if isErrorSan m.content then 1 else 0) := by
      rw [htake, List.countP_append, ← hc (sigSan m.content)]
      congr 1
      cases he : isErrorSan m.content <;> simp [List.countP_cons, he]
    have hc' : ∀ s,
        (if isErrorSan m.content = true then bump c (sigSan m.content) else c) s
          = (pre ++ [m]).countP (fun m2 =>
              isErrorSan m2.content && decide (sigSan m2.content = s)) := by
      intro s
      rw [List.countP_append, ← hc s]
      by_cases he : isErrorSan m.content = true
      · rw [if_pos he]
        by_cases hs : s = sigSan m.content
        · subst hs
          simp [bump, List.countP_cons, he]
        · have hs' : ¬ (sigSan m.content = s) := fun h => hs h.symm
          simp [bump, List.countP_cons, hs, he, hs']
      · rw [if_neg he]
        simp only [Bool.not_eq_true] at he
        simp [List.countP_cons, he]
    rw [balAux,
      show List.enumFrom pre.length (m :: t')
        = (pre.length, m) :: List.enumFrom (pre.length + 1) t' from rfl]
    simp only [List.filter_cons]
    rw [hcm]
    by_cases he : isErrorSan m.content = true
    · have ihe := hc' (sigSan m.content)
      have ih' := ih (pre ++ [m]) (bump c (sigSan m.content))
        (by intro s; have h := hc' s; rwa [if_pos he] at h)
      simp only [List.length_append, List.length_cons, List.length_nil,
        List.append_assoc, List.singleton_append, Nat.add_zero, Nat.zero_add] at ih'
      rw [if_pos he]
      by_cases hcnt : 2 < c (sigSan m.content) + 1
      · rw [if_pos hcnt]
        have hx : ¬ (c (sigSan m.content) + 1 ≤ 2) := by omega
        simp [he, hx]
        exact ih'
      · rw [if_neg hcnt]
        have hx : c (sigSan m.content) + 1 ≤ 2 := by omega
        by_cases hf : isFillerMessage m = true
        · rw [if_pos hf]
          simp [he, hf]
          exact ih'
        · rw [if_neg hf]
          simp [he, hf, hx]
          exact ih'
    · have ih' := ih (pre ++ [m]) c
        (by intro s; have h := hc' s; rwa [if_neg he] at h)
      simp only [List.length_append, List.length_cons, List.length_nil,
        List.append_assoc, List.singleton_append, Nat.add_zero, Nat.zero_add] at ih'
      rw [if_neg he]
      simp only [Bool.not_eq_true] at he
      by_cases hf : isFillerMessage m = true
      · rw [if_pos hf]
        simp [he, hf]
        exact ih'
      · rw [if_neg hf]
        simp [he, hf]
        exact ih'

/-- **C5 (counterexample).** The balanced pass does not use the
specification's eight-indicator error test: three repetitions of a message
bearing only `null pointer` are all kept by the code, while the claim's
pass would cap them at two. -/
theorem claim_C5_cex :
    balancedCleanup exC5 ≠ balancedDecl isErrorMessage sigAna exC5 := by
  decide

/-- **C5 (amended).** The balanced second pass keeps at most the first 2
occurrences of each error signature — where error-bearing means the
sanitizer's six-indicator test (`error:`, `exception:`, `traceback`,
`failed`, `cannot`, `undefined`) and the signature is the lowercased,
whitespace-stripped first 100 characters — drops later occurrences, drops
every filler message, and keeps all other messages. -/
theorem claim_C5 (l : List Message) :
    balancedCleanup l = balancedDecl isErrorSan sigSan l := by
  have h := balAux_decl_aux l [] (fun _ => 0) (by intro s; simp)
  simpa [balancedCleanup, balancedDecl, List.enum] using h

/-! ### The aggressive pass: deduplication properties -/

/-- Once an error signature has been recorded, the aggressive pass keeps no
further message bearing it. -/
lemma aggrAux_err_killed :
    ∀ (l : List Message) (seenE seenC : List Content) (s : Content),
    s ∈ seenE → (aggrAux l seenE seenC).filter (errWithSig s) = [] := by
  intro l
  induction l with
  | nil => intro _ _ _ _; simp [aggrAux]
  | cons m rest ih =>
    intro seenE seenC s hs
    have hsup : s ∈ updE m seenE := by
      unfold updE
      split
      · exact List.mem_cons_of_mem _ hs
      · exact hs
    rw [aggrAux]
    split
    · exact ih _ _ _ hs
    · rename_i hdrop
      have hkept : errWithSig s m = false := by
        unfold errWithSig
        by_cases he : isErrorSan m.content = true
        · by_cases heq : sigSan m.content = s
          · exfalso
            apply hdrop
            simp [he, heq ▸ hs]
          · simp [heq]
        · simp only [Bool.not_eq_true] at he
          simp [he]
      split
      · split
        · exact ih _ _ _ hsup
        · split
          · exact ih _ _ _ hsup
          · rw [List.filter_cons, hkept]
            simp only [Bool.false_eq_true, if_false]
            exact ih _ _ _ hsup
      · split
        · exact ih _ _ _ hsup
        · rw [List.filter_cons, hkept]
          simp only [Bool.false_eq_true, if_false]
          exact ih _ _ _ hsup

/-- Before an error signature has been recorded, the aggressive pass keeps
at most the first input message bearing it. -/
lemma aggrAux_err_first :
    ∀ (l : List Message) (seenE seenC : List Content) (s : Content),
    s ∉ seenE →
    List.Sublist ((aggrAux l seenE seenC).filter (errWithSig s))
      ((l.filter (errWithSig s)).take 1) := by
  intro l
  induction l with
  | nil => intro _ _ _ _; simp [aggrAux]
  | cons m rest ih =>
    intro seenE seenC s hs
    by_cases hm : errWithSig s m = true
    · have hparts : isErrorSan m.content = true ∧ sigSan m.content = s := by
        have h := hm
        unfold errWithSig at h
        simpa using h
      have he : isErrorSan m.content = true := hparts.1
      have heq : sigSan m.content = s := hparts.2
      have hnodrop : ¬ ((isErrorSan m.content &&
          decide (sigSan m.content ∈ seenE)) = true) := by
        simp [he, heq, hs]
      have hsup : s ∈ updE m seenE := by
        unfold updE
        rw [if_pos he, heq]
        exact List.mem_cons_self _ _
      rw [aggrAux, if_neg hnodrop]
      rw [List.filter_cons, hm]
      simp only [if_pos]
      split
      · split
        · rw [aggrAux_err_killed _ _ _ _ hsup]
          exact List.nil_sublist _
        · split
          · rw [aggrAux_err_killed _ _ _ _ hsup]
            exact List.nil_sublist _
          · rw [List.filter_cons, hm]
            simp only [if_pos]
            rw [aggrAux_err_killed _ _ _ _ hsup]
            simp
      · split
        · rw [aggrAux_err_killed _ _ _ _ hsup]
          exact List.nil_sublist _
        · rw [List.filter_cons, hm]
          simp only [if_pos]
          rw [aggrAux_err_killed _ _ _ _ hsup]
          simp
    · simp only [Bool.not_eq_true] at hm
      have hsup : s ∉ updE m seenE := by
        unfold updE
        split
        · rename_i he
          intro hmem
          rcases List.mem_cons.mp hmem with h | h
          · unfold errWithSig at hm
            rw [he] at hm
            simp [h.symm] at hm
          · exact hs h
        · exact hs
      rw [aggrAux]
      rw [List.filter_cons, hm]
      simp only [Bool.false_eq_true, if_false]
      split
      · exact ih _ _ _ hs
      · split
        · split
          · exact ih _ _ _ hsup
          · split
            · exact ih _ _ _ hsup
            · rw [List.filter_cons, hm]
              simp only [Bool.false_eq_true, if_false]
              exact ih _ _ _ hsup
        · split
          · exact ih _ _ _ hsup
          · rw [List.filter_cons, hm]
            simp only [Bool.false_eq_true, if_false]
            exact ih _ _ _ hsup

/-- Once a code key has been recorded, the aggressive pass keeps no further
message bearing it. -/
lemma aggrAux_code_killed :
    ∀ (l : List Message) (seenE seenC : List Content) (h : Content),
    h ∈ seenC →
    (aggrAux l seenE seenC).filter (fun m => codeKey m == some h) = [] := by
  intro l
  induction l with
  | nil => intro _ _ _ _; simp [aggrAux]
  | cons m rest ih =>
    intro seenE seenC h hmem
    rw [aggrAux]
    split
    · exact ih _ _ _ hmem
    · split
      · rename_i h' hk
        by_cases hC : h' ∈ seenC
        · rw [if_pos hC]
          exact ih _ _ _ hmem
        · rw [if_neg hC]
          have hne : ¬ ((codeKey m == some h) = true) := by
            rw [hk]
            intro habs
            have heq' : h' = h := Option.some.inj (eq_of_beq habs)
            exact hC (heq' ▸ hmem)
          split
          · exact ih _ _ _ (List.mem_cons_of_mem _ hmem)
          · rw [List.filter_cons]
            simp only [Bool.not_eq_true] at hne
            rw [hne]
            simp only [Bool.false_eq_true, if_false]
            exact ih _ _ _ (List.mem_cons_of_mem _ hmem)
      · rename_i hk
        have hne : (codeKey m == some h) = false := by
          rw [hk]
          rfl
        split
        · exact ih _ _ _ hmem
        · rw [List.filter_cons, hne]
          simp only [Bool.false_eq_true, if_false]
          exact ih _ _ _ hmem

/-- The aggressive pass keeps at most one message per code key. -/
lemma aggrAux_code_once :
    ∀ (l : List Message) (seenE seenC : List Content) (h : Content),
    ((aggrAux l seenE seenC).filter (fun m => codeKey m == some h)).length ≤ 1 := by
  intro l
  induction l with
  | nil => intro _ _ _; simp [aggrAux]
  | cons m rest ih =>
    intro seenE seenC h
    rw [aggrAux]
    split
    · exact ih _ _ _
    · split
      · rename_i h' hk
        by_cases hC : h' ∈ seenC
        · rw [if_pos hC]
          exact ih _ _ _
        · rw [if_neg hC]
          by_cases hhh : h' = h
          · subst hhh
            split
            · rw [aggrAux_code_killed _ _ _ _ (List.mem_cons_self _ _)]
              simp
            · rw [List.filter_cons]
              have : (codeKey m == some h') = true := by
                rw [hk]
                exact beq_self_eq_true _
              rw [this]
              simp only [if_pos]
              rw [aggrAux_code_killed _ _ _ _ (List.mem_cons_self _ _)]
              simp
          · have hne : (codeKey m == some h) = false := by
              rw [hk]
              simp [hhh]
            split
            · exact ih _ _ _
            · rw [List.filter_cons, hne]
              simp only [Bool.false_eq_true, if_false]
              exact ih _ _ _
      · rename_i hk
        have hne : (codeKey m == some h) = false := by
          rw [hk]
          rfl
        split
        · exact ih _ _ _
        · rw [List.filter_cons, hne]
          simp only [Bool.false_eq_true, if_false]
          exact ih _ _ _

/-- The aggressive pass keeps no filler message. -/
lemma aggrAux_no_filler :
    ∀ (l : List Message) (seenE seenC : List Content) (m : Message),
    m ∈ aggrAux l seenE seenC → isFillerMessage m = false := by
  intro l
  induction l with
  | nil => intro _ _ _ hm; simp [aggrAux] at hm
  | cons m0 rest ih =>
    intro seenE seenC m hm
    rw [aggrAux] at hm
    revert hm
    split
    · exact fun hm => ih _ _ _ hm
    · split
      · split
        · exact fun hm => ih _ _ _ hm
        · split
          · exact fun hm => ih _ _ _ hm
          · rename_i hf
            intro hm
            rcases List.mem_cons.mp hm with h | h
            · subst h
              simpa using hf
            · exact ih _ _ _ h
      · split
        · exact fun hm => ih _ _ _ hm
        · rename_i hf
          intro hm
          rcases List.mem_cons.mp hm with h | h
          · subst h
            simpa using hf
          · exact ih _ _ _ h

/-- **C6 (counterexample).** "Only the first message per code signature is
kept" fails: a message whose code block's signature was first borne by a
message dropped as a duplicate error is kept, because the dropped message
never recorded its code signature. -/
theorem claim_C6_cex : ¬ claimC6At exC6 := by
  unfold claimC6At
  decide

/-- **C6 (amended).** The aggressive pass keeps no filler message; keeps at
most one message per error signature, namely the first input message bearing
that signature; and keeps at most one message per code signature (the
signature being recorded only once a message bearing it passes the
duplicate-error check). -/
theorem claim_C6 (l : List Message) :
    (∀ m ∈ aggressiveCleanup l, isFillerMessage m = false)
    ∧ (∀ s, ((aggressiveCleanup l).filter (errWithSig s)).length ≤ 1)
    ∧ (∀ m ∈ aggressiveCleanup l, isErrorSan m.content = true →
        (l.filter (errWithSig (sigSan m.content))).headD dfltMsg = m)
    ∧ (∀ h, ((aggressiveCleanup l).filter
        (fun m => codeKey m == some h)).length ≤ 1) := by
  unfold aggressiveCleanup
  refine ⟨?_, ?_, ?_, ?_⟩
  · exact fun m hm => aggrAux_no_filler l [] [] m hm
  · intro s
    have hsub := aggrAux_err_first l [] [] s (by simp)
    have := hsub.length_le
    have hlen : ((l.filter (errWithSig s)).take 1).length ≤ 1 := by
      simp [List.length_take]
    omega
  · intro m hm herr
    have hself : errWithSig (sigSan m.content) m = true := by
      unfold errWithSig
      simp [herr]
    have hmemf : m ∈ (aggressiveCleanup l).filter (errWithSig (sigSan m.content)) :=
      List.mem_filter.mpr ⟨hm, hself⟩
    have hsub := aggrAux_err_first l [] [] (sigSan m.content) (by simp)
    have hmem1 : m ∈ (l.filter (errWithSig (sigSan m.content))).take 1 :=
      hsub.subset hmemf
    cases hl : l.filter (errWithSig (sigSan m.content)) with
    | nil =>
      rw [hl] at hmem1
      simp at hmem1
    | cons a t =>
      rw [hl] at hmem1
      simp only [List.take_succ_cons, List.take_zero] at hmem1
      have : m = a := by simpa using hmem1
      simp [this]
  · exact fun h => aggrAux_code_once l [] [] h

/-- Witness for C6 on a two-message duplicate-error conversation. -/
theorem claim_C6_wit :
    ([(⟨MessageRole.user, str "error: a"⟩ : Message),
      ⟨MessageRole.user, str "error: a"⟩].filter
        (errWithSig (sigSan (str "error: a")))).headD dfltMsg
      = ⟨MessageRole.user, str "error: a"⟩ :=
  (claim_C6 [⟨MessageRole.user, str "error: a"⟩,
    ⟨MessageRole.user, str "error: a"⟩]).2.2.1
    ⟨MessageRole.user, str "error: a"⟩ (by decide) (by decide)

/-! ### Blocker identification -/

lemma find?_congr_mem {α : Type} (p q : α → Bool) :
    ∀ l : List α, (∀ x ∈ l, p x = q x) → l.find? p = l.find? q := by
  intro l
  induction l with
  | nil => intro _; rfl
  | cons a t ih =>
    intro h
    by_cases hpa : p a = true
    · rw [List.find?_cons_of_pos _ hpa,
        List.find?_cons_of_pos _ ((h a (List.mem_cons_self a t)) ▸ hpa)]
    · rw [List.find?_cons_of_neg _ hpa,
        List.find?_cons_of_neg _ ((h a (List.mem_cons_self a t)) ▸ hpa)]
      exact ih (fun x hx => h x (List.mem_cons_of_mem _ hx))

/-- One step of Python `max(..., key=occurrences)`: folding the first two
elements into their first maximum does not change the first maximal
element. -/
lemma findMax_cons (p q : LoopPattern) (t : List LoopPattern) :
    firstMaxByOcc (p :: q :: t)
      = firstMaxByOcc ((if p.occurrences < q.occurrences then q else p) :: t) := by
  unfold firstMaxByOcc
  by_cases hpq : p.occurrences < q.occurrences
  · rw [if_pos hpq]
    have hPp : ((p :: q :: t).all
        (fun r => r.occurrences ≤ p.occurrences)) = false := by
      rw [List.all_eq_false]
      refine ⟨q, by simp, by simp; omega⟩
    rw [List.find?_cons_of_neg _ (by simp [hPp])]
    apply find?_congr_mem
    intro x hx
    cases hrest : ((q :: t).all (fun r => r.occurrences ≤ x.occurrences)) with
    | false => simp [List.all_cons, hrest]
    | true =>
      have hq : q.occurrences ≤ x.occurrences := by
        have hall := List.all_eq_true.mp hrest
        simpa using hall q (List.mem_cons_self q t)
      have hp : p.occurrences ≤ x.occurrences := by omega
      simp [List.all_cons, hrest, hp]
  · rw [if_neg hpq]
    push_neg at hpq
    have hpoint : ∀ x : LoopPattern,
        ((p :: q :: t).all (fun r => r.occurrences ≤ x.occurrences))
          = ((p :: t).all (fun r => r.occurrences ≤ x.occurrences)) := by
      intro x
      simp only [List.all_cons]
      by_cases hpx : p.occurrences ≤ x.occurrences
      · have hqx : q.occurrences ≤ x.occurrences := by omega
        simp [hpx, hqx]
      · simp [hpx]
    rw [find?_congr_mem _ _ _ (fun x _ => hpoint x)]
    by_cases hp : ((p :: t).all (fun r => r.occurrences ≤ p.occurrences)) = true
    · rw [@List.find?_cons_of_pos _
          (fun x => (p :: t).all (fun r => decide (r.occurrences ≤ x.occurrences)))
          p (q :: t) hp,
        @List.find?_cons_of_pos _
          (fun x => (p :: t).all (fun r => decide (r.occurrences ≤ x.occurrences)))
          p t hp]
    · rw [@List.find?_cons_of_neg _
          (fun x => (p :: t).all (fun r => decide (r.occurrences ≤ x.occurrences)))
          p (q :: t) hp,
        @List.find?_cons_of_neg _
          (fun x => (p :: t).all (fun r => decide (r.occurrences ≤ x.occurrences)))
          p t hp]
      have hq : ((p :: t).all (fun r => r.occurrences ≤ q.occurrences)) = false := by
        cases hqq : ((p :: t).all (fun r => r.occurrences ≤ q.occurrences)) with
        | false => rfl
        | true =>
          exfalso
          apply hp
          have hall := List.all_eq_true.mp hqq
          have hpq2 : p.occurrences ≤ q.occurrences := by
            simpa using hall p (List.mem_cons_self p t)
          rw [List.all_eq_true]
          intro r hr
          have hr2 := hall r hr
          simp only [decide_eq_true_eq] at hr2 ⊢
          omega
      rw [@List.find?_cons_of_neg _
          (fun x => (p :: t).all (fun r => decide (r.occurrences ≤ x.occurrences)))
          q t (by simp [hq])]

/-- Python's `max` over a nonempty pattern list returns the first element of
maximal `occurrences`. -/
lemma firstMax_foldl :
    ∀ (rest : List LoopPattern) (p : LoopPattern),
    firstMaxByOcc (p :: rest)
      = some (rest.foldl (fun best q =>
          if best.occurrences < q.occurrences then q else best) p) := by
  intro rest
  induction rest with
  | nil =>
    intro p
    unfold firstMaxByOcc
    rw [List.find?_cons_of_pos _ (by simp)]
    rfl
  | cons q t ih =>
    intro p
    rw [findMax_cons, List.foldl_cons]
    exact ih _

/-- If the first error-bearing message of the scanned list has a keyword
line, the blocker scan returns that line stripped and truncated. -/
lemma recentErrorLine_found :
    ∀ (l : List Message) (m : Message) (ln : Content),
    l.find? (fun m2 => isErrorMessage m2.content) = some m →
    (splitLines m.content).find? (fun ln2 =>
      [str "error", str "exception", str "failed"].any
        (fun w => containsSub (lowerC ln2) w)) = some ln →
    recentErrorLine l = some ((trimC ln).take 200) := by
  intro l
  induction l with
  | nil => intro m ln h _; simp at h
  | cons a t ih =>
    intro m ln hfind hline
    by_cases he : isErrorMessage a.content = true
    · rw [@List.find?_cons_of_pos _ (fun m2 => isErrorMessage m2.content) a t he]
        at hfind
      have ham : a = m := Option.some.inj hfind
      subst ham
      rw [recentErrorLine, if_pos he, hline]
    · rw [@List.find?_cons_of_neg _ (fun m2 => isErrorMessage m2.content) a t he]
        at hfind
      rw [recentErrorLine, if_neg he]
      exact ih m ln hfind hline

/-- A scan over messages none of which is error-bearing finds nothing. -/
lemma recentErrorLine_none :
    ∀ l : List Message, (∀ m ∈ l, isErrorMessage m.content = false) →
    recentErrorLine l = none := by
  intro l
  induction l with
  | nil => intro _; rfl
  | cons a t ih =>
    intro h
    rw [recentErrorLine, if_neg (by simp [h a (List.mem_cons_self a t)])]
    exact ih (fun m hm => h m (List.mem_cons_of_mem _ hm))

/-- **C7 (counterexample).** Step (2) of the claim fails as stated: the
returned line is stripped of its leading whitespace before truncation, so a
matching line with leading spaces refutes the unstripped reading. -/
theorem claim_C7_cex : ¬ claimC7With false exC7 [] := by
  unfold claimC7With
  decide

/-- **C7 (amended).** Blocker identification follows the claimed priority
order, with step (2) returning the first matching line stripped of
surrounding whitespace and then truncated to 200 characters. -/
theorem claim_C7 (msgs : List Message) (loops : List LoopPattern) :
    claimC7With true msgs loops := by
  unfold claimC7With
  refine ⟨?_, ?_, ?_, ?_⟩
  · intro hne
    unfold identifyBlocker
    cases hfl : loops.filter (fun l => decide (l.patternType = "repetitive_error")) with
    | nil => exact absurd hfl hne
    | cons p rest =>
      rw [firstMax_foldl]
      simp [maxByOcc]
  · intro hfl
    cases hfind : ((msgs.drop (msgs.length - 10)).reverse).find?
        (fun m => isErrorMessage m.content) with
    | none => rfl
    | some m =>
      simp only [Option.all]
      cases hline : (splitLines m.content).find? (fun ln =>
          [str "error", str "exception", str "failed"].any
            (fun w => containsSub (lowerC ln) w)) with
      | none => rfl
      | some ln =>
        simp only [Option.all, decide_eq_true_eq, if_pos]
        unfold identifyBlocker
        rw [hfl]
        have hrec := recentErrorLine_found _ m ln hfind hline
        simp [maxByOcc, hrec]
  · intro hfl hall hany
    unfold identifyBlocker
    rw [hfl]
    have hnone := recentErrorLine_none _ (by
      intro m hm
      have h := List.all_eq_true.mp hall m hm
      simpa using h)
    simp [maxByOcc, hnone, hany]
  · intro hfl hall hany
    unfold identifyBlocker
    rw [hfl]
    have hnone := recentErrorLine_none _ (by
      intro m hm
      have h := List.all_eq_true.mp hall m hm
      simpa using h)
    simp [maxByOcc, hnone, hany]

/-- Witness for C7 on a concrete loop list: the blocker is the description
of the repetitive-error pattern with the most occurrences. -/
theorem claim_C7_wit :
    identifyBlocker []
        [⟨"repetitive_error", 3, 0, 2, str "desc one"⟩,
         ⟨"repetitive_error", 5, 1, 4, str "desc two"⟩]
      = ((firstMaxByOcc
          (([⟨"repetitive_error", 3, 0, 2, str "desc one"⟩,
             ⟨"repetitive_error", 5, 1, 4, str "desc two"⟩] :
              List LoopPattern).filter (fun l =>
            decide (l.patternType = "repetitive_error")))).getD dfltPat).description :=
  (claim_C7 []
    [⟨"repetitive_error", 3, 0, 2, str "desc one"⟩,
     ⟨"repetitive_error", 5, 1, 4, str "desc two"⟩]).1 (by decide)

/-! ### Scenario A -/

/-- The sanitizer's six error indicators are among the analyzer's eight. -/
lemma isErrorSan_le (c : Content) : isErrorSan c = true → isErrorMessage c = true := by
  unfold isErrorSan isErrorMessage
  intro h
  simp only [List.any_cons, List.any_nil, Bool.or_eq_true] at h ⊢
  tauto

lemma isErrorSan_false {c : Content} (h : isErrorMessage c = false) :
    isErrorSan c = false := by
  cases hs : isErrorSan c with
  | false => rfl
  | true => exact absurd (isErrorSan_le c hs) (by simp [h])

/-- **C8 (counterexample).** Scenario A as stated fails when an apology
message is short enough to be filler: with the apology `"sorry"` at index 1,
balanced sanitization drops the index-1 message as filler instead of
keeping it. -/
theorem claim_C8_cex : ¬ claimC8At exC8 := by
  unfold claimC8At
  decide

/-- **C8 (amended).** Scenario A holds under the conditions the second pass
needs: the user messages bear no apology phrase, no message is error-bearing
or contains a code block, and the index-1 apology message is not a filler
message. Then the analysis detects exactly the one apology cascade
(`occurrences = 4`, spanning 1..7) and balanced sanitization removes
exactly the apology messages at indices 3, 5 and 7, keeping index 1. -/
theorem claim_C8 (c0 c1 c2 c3 c4 c5 c6 c7 : Content)
    (h1 : isApology c1 = true) (h3 : isApology c3 = true)
    (h5 : isApology c5 = true) (h7 : isApology c7 = true)
    (hu2 : isApology c2 = false) (hu4 : isApology c4 = false)
    (hu6 : isApology c6 = false)
    (herr : ∀ c ∈ [c0, c1, c2, c3, c4, c5, c6, c7], isErrorMessage c = false)
    (hcode : ∀ c ∈ [c0, c1, c2, c3, c4, c5, c6, c7], extractCodeBlocks c = [])
    (hfill : isFillerMessage ⟨MessageRole.assistant, c1⟩ = false) :
    (analyzeConversation 3 3
        [⟨MessageRole.user, c0⟩, ⟨MessageRole.assistant, c1⟩,
         ⟨MessageRole.user, c2⟩, ⟨MessageRole.assistant, c3⟩,
         ⟨MessageRole.user, c4⟩, ⟨MessageRole.assistant, c5⟩,
         ⟨MessageRole.user, c6⟩, ⟨MessageRole.assistant, c7⟩]).loopsDetected
      = [⟨"apology_cascade", 4, 1, 7,
          str "Model apologized 4 times without making progress"⟩]
    ∧ sanitize SanitizationLevel.balanced
        [⟨MessageRole.user, c0⟩, ⟨MessageRole.assistant, c1⟩,
         ⟨MessageRole.user, c2⟩, ⟨MessageRole.assistant, c3⟩,
         ⟨MessageRole.user, c4⟩, ⟨MessageRole.assistant, c5⟩,
         ⟨MessageRole.user, c6⟩, ⟨MessageRole.assistant, c7⟩]
        (analyzeConversation 3 3
          [⟨MessageRole.user, c0⟩, ⟨MessageRole.assistant, c1⟩,
           ⟨MessageRole.user, c2⟩, ⟨MessageRole.assistant, c3⟩,
           ⟨MessageRole.user, c4⟩, ⟨MessageRole.assistant, c5⟩,
           ⟨MessageRole.user, c6⟩, ⟨MessageRole.assistant, c7⟩])
      = [⟨MessageRole.user, c0⟩, ⟨MessageRole.assistant, c1⟩,
         ⟨MessageRole.user, c2⟩, ⟨MessageRole.user, c4⟩,
         ⟨MessageRole.user, c6⟩] := by
  have e0 := herr c0 (by simp)
  have e1 := herr c1 (by simp)
  have e2 := herr c2 (by simp)
  have e3 := herr c3 (by simp)
  have e4 := herr c4 (by simp)
  have e5 := herr c5 (by simp)
  have e6 := herr c6 (by simp)
  have e7 := herr c7 (by simp)
  have s0 := isErrorSan_false e0
  have s1 := isErrorSan_false e1
  have s2 := isErrorSan_false e2
  have s4 := isErrorSan_false e4
  have s6 := isErrorSan_false e6
  have k0 := hcode c0 (by simp)
  have k1 := hcode c1 (by simp)
  have k2 := hcode c2 (by simp)
  have k3 := hcode c3 (by simp)
  have k4 := hcode c4 (by simp)
  have k5 := hcode c5 (by simp)
  have k6 := hcode c6 (by simp)
  have k7 := hcode c7 (by simp)
  set M : List Message :=
    [⟨MessageRole.user, c0⟩, ⟨MessageRole.assistant, c1⟩,
     ⟨MessageRole.user, c2⟩, ⟨MessageRole.assistant, c3⟩,
     ⟨MessageRole.user, c4⟩, ⟨MessageRole.assistant, c5⟩,
     ⟨MessageRole.user, c6⟩, ⟨MessageRole.assistant, c7⟩] with hM
  have hRE : detectRepetitiveErrors 3 M = [] := by
    have hA : errorMessagePairs M = [] := by
      unfold errorMessagePairs
      rw [hM]
      simp [List.enum, List.enumFrom, e0, e1, e2, e3, e4, e5, e6, e7]
    unfold detectRepetitiveErrors
    rw [hA]
    rfl
  have hAC : detectApologyCascade 3 M = [⟨"apology_cascade", 4, 1, 7,
      str "Model apologized 4 times without making progress"⟩] := by
    have hidx : apologyIdx M = [1, 3, 5, 7] := by
      unfold apologyIdx
      rw [hM]
      simp [List.enum, List.enumFrom, h1, h3, h5, h7]
    unfold detectApologyCascade
    rw [hidx]
    decide
  have hCC : detectCodeChurn M = [] := by
    have hCB : codeBlockPairs M = [] := by
      unfold codeBlockPairs
      rw [hM]
      simp [List.enum, List.enumFrom, k0, k1, k2, k3, k4, k5, k6, k7]
    unfold detectCodeChurn
    rw [hCB]
    rfl
  have hloops : (analyzeConversation 3 3 M).loopsDetected
      = [⟨"apology_cascade", 4, 1, 7,
          str "Model apologized 4 times without making progress"⟩] := by
    unfold analyzeConversation
    dsimp only
    rw [hRE, hAC, hCC]
    simp
  have hfa : findApologyIndices M 1 7 = [1, 3, 5, 7] := by
    unfold findApologyIndices
    rw [hM]
    simp [List.range', List.getD_cons_succ, List.getD_cons_zero,
      h1, h3, h5, h7, hu2, hu4, hu6]
  have hrem : removalIndices M [⟨"apology_cascade", 4, 1, 7,
      str "Model apologized 4 times without making progress"⟩] = [3, 5, 7] := by
    unfold removalIndices
    simp only [List.flatMap_cons, List.flatMap_nil, List.append_nil]
    rw [if_neg (by decide), if_pos (by decide)]
    rw [hfa]
    rfl
  have hfi : filterIdx M [3, 5, 7] = [⟨MessageRole.user, c0⟩,
      ⟨MessageRole.assistant, c1⟩, ⟨MessageRole.user, c2⟩,
      ⟨MessageRole.user, c4⟩, ⟨MessageRole.user, c6⟩] := by
    unfold filterIdx
    rw [hM]
    simp [List.enum, List.enumFrom]
  have hbal : balancedCleanup [⟨MessageRole.user, c0⟩,
      ⟨MessageRole.assistant, c1⟩, ⟨MessageRole.user, c2⟩,
      ⟨MessageRole.user, c4⟩, ⟨MessageRole.user, c6⟩]
      = [⟨MessageRole.user, c0⟩, ⟨MessageRole.assistant, c1⟩,
         ⟨MessageRole.user, c2⟩, ⟨MessageRole.user, c4⟩,
         ⟨MessageRole.user, c6⟩] := by
    have fu : ∀ c : Content, isFillerMessage ⟨MessageRole.user, c⟩ = false := by
      intro c
      unfold isFillerMessage
      rw [if_pos (show (⟨MessageRole.user, c⟩ : Message).role ≠ MessageRole.assistant
        by simp)]
    unfold balancedCleanup
    simp [balAux, s0, s1, s2, s4, s6, hfill, fu]
  refine ⟨hloops, ?_⟩
  unfold sanitize
  rw [hloops, hrem, hfi]
  dsimp only
  exact hbal

/-- Witness for C8 at a concrete scenario-A conversation with substantial
apology messages. -/
theorem claim_C8_wit :
    sanitize SanitizationLevel.balanced
        [⟨MessageRole.user, str "please help me with my build setup today"⟩,
         ⟨MessageRole.assistant, str "sorry, i mixed up the configuration there!!"⟩,
         ⟨MessageRole.user, str "that did not work as expected at all"⟩,
         ⟨MessageRole.assistant, str "sorry, let me take another careful look now"⟩,
         ⟨MessageRole.user, str "still the same output appears here"⟩,
         ⟨MessageRole.assistant, str "sorry about that, trying a new idea instead"⟩,
         ⟨MessageRole.user, str "any other ideas you can think of"⟩,
         ⟨MessageRole.assistant, str "sorry, i am stuck on this problem for now"⟩]
        (analyzeConversation 3 3
          [⟨MessageRole.user, str "please help me with my build setup today"⟩,
           ⟨MessageRole.assistant, str "sorry, i mixed up the configuration there!!"⟩,
           ⟨MessageRole.user, str "that did not work as expected at all"⟩,
           ⟨MessageRole.assistant, str "sorry, let me take another careful look now"⟩,
           ⟨MessageRole.user, str "still the same output appears here"⟩,
           ⟨MessageRole.assistant, str "sorry about that, trying a new idea instead"⟩,
           ⟨MessageRole.user, str "any other ideas you can think of"⟩,
           ⟨MessageRole.assistant, str "sorry, i am stuck on this problem for now"⟩])
      = [⟨MessageRole.user, str "please help me with my build setup today"⟩,
         ⟨MessageRole.assistant, str "sorry, i mixed up the configuration there!!"⟩,
         ⟨MessageRole.user, str "that did not work as expected at all"⟩,
         ⟨MessageRole.user, str "still the same output appears here"⟩,
         ⟨MessageRole.user, str "any other ideas you can think of"⟩] :=
  (claim_C8 _ _ _ _ _ _ _ _ (by decide) (by decide) (by decide) (by decide)
    (by decide) (by decide) (by decide) (by decide) (by decide) (by decide)).2

end ContextAmbulance
